import Mathlib

/-!
Verification of the ECIES core (Botan, `src/lib/pubkey/ecies/ecies.h`).

The header defines the flag enum `ECIES_Flags` with its bitwise operators, the
inline accessors of `ECIES_KA_Params` / `ECIES_System_Params`, and the inline
setters of `ECIES_Encryptor` / `ECIES_Decryptor`; those are embedded below
directly from the header.  The bodies of `ECIES_KA_Operation`'s constructor,
`derive_secret`, `ECIES_Encryptor::enc` and `ECIES_Decryptor::do_decrypt` are
declared in the header but implemented in `ecies.cpp`, which is not part of
the sources; those operations are modelled from the specification, each marked
`Modelled from the spec:` in its doc comment.

Byte strings are `List Nat`; points of the prime-order subgroup generated by
the base point G are represented by their discrete logarithm modulo the
subgroup order n (a cyclic-group model of the curve), with the X coordinate,
point encoding/decoding, KDF, DEM and MAC supplied as abstract functions in a
`Model` record, constrained only by the contracts the spec states for them.
-/

namespace ECIES

/-- Byte strings: finite sequences of octets. -/
abbrev Bytes := List Nat

/-! ### Flags (from `ecies.h` lines 28–53) -/

/-- Source `ECIES_Flags::SINGLE_HASH_MODE = 1` (ecies.h:33). -/
def SINGLE_HASH_MODE : Nat := 1

/-- Source `ECIES_Flags::COFACTOR_MODE = 2` (ecies.h:36). -/
def COFACTOR_MODE : Nat := 2

/-- Source `ECIES_Flags::OLD_COFACTOR_MODE = 4` (ecies.h:39). -/
def OLD_COFACTOR_MODE : Nat := 4

/-- Source `ECIES_Flags::CHECK_MODE = 8` (ecies.h:42). -/
def CHECK_MODE : Nat := 8

/-- Source `operator|(ECIES_Flags, ECIES_Flags)` (ecies.h:45–48): bitwise or of the
underlying `uint32_t` values. -/
def flagOr (a b : Nat) : Nat := a ||| b

/-- Source `operator&(ECIES_Flags, ECIES_Flags)` (ecies.h:50–53): bitwise and of the
underlying `uint32_t` values. -/
def flagAnd (a b : Nat) : Nat := a &&& b

/-- Source `ECIES_KA_Params::single_hash_mode()` (ecies.h:85–88):
`(m_flags & SINGLE_HASH_MODE) == SINGLE_HASH_MODE`. -/
def single_hash_mode (f : Nat) : Bool := flagAnd f SINGLE_HASH_MODE == SINGLE_HASH_MODE

/-- Source `ECIES_KA_Params::cofactor_mode()` (ecies.h:90–93):
`(m_flags & COFACTOR_MODE) == COFACTOR_MODE`. -/
def cofactor_mode (f : Nat) : Bool := flagAnd f COFACTOR_MODE == COFACTOR_MODE

/-- Source `ECIES_KA_Params::old_cofactor_mode()` (ecies.h:95–98):
`(m_flags & OLD_COFACTOR_MODE) == OLD_COFACTOR_MODE`. -/
def old_cofactor_mode (f : Nat) : Bool := flagAnd f OLD_COFACTOR_MODE == OLD_COFACTOR_MODE

/-- Source `ECIES_KA_Params::check_mode()` (ecies.h:100–103):
`(m_flags & CHECK_MODE) == CHECK_MODE`. -/
def check_mode (f : Nat) : Bool := flagAnd f CHECK_MODE == CHECK_MODE

/-! ### Error taxonomy (spec §7) -/

/-- The error taxonomy of spec §7 for the operations that fail by exception. -/
inductive Err where
  | configurationError
  | missingPeerKey
  | malformed
  | badPoint
  | keyAgreementError
  | demError
deriving DecidableEq, Repr

/-! ### Abstract primitives -/

/-- The external collaborators of the ECIES core (spec §1 "out of scope"),
bundled as abstract functions: a cyclic-group model of the curve where a point
is its discrete logarithm modulo the subgroup order `n`, plus KDF, DEM and MAC
resolved from their textual specs. -/
structure Model where
  /-- order of the prime-order subgroup generated by the base point -/
  n : Nat
  /-- curve cofactor `h` -/
  h : Nat
  /-- the curve library's precomputed `h⁻¹ mod n`, as used by its
  h-inverse-corrected cofactor ECDH; contract: `h * hInv % n = 1` -/
  hInv : Nat
  /-- byte length of the curve's field prime -/
  fieldBytes : Nat
  /-- `encoded_eph_pub_len(domain, compression)`: length of an encoded point -/
  ptLen : Nat
  /-- X coordinate of the point represented by a subgroup index -/
  xCoord : Nat → Nat
  /-- SEC1-style point encoding under the configured compression -/
  encodePt : Nat → Bytes
  /-- point decoding; `none` on a parse error -/
  decodePt : Bytes → Option Nat
  /-- KDF resolved from `kdf_spec`: input and output length to output -/
  kdf : Bytes → Nat → Bytes
  /-- DEM encryption resolved from `dem_spec`: key, iv, plaintext -/
  demEnc : Bytes → Bytes → Bytes → Bytes
  /-- DEM decryption: key, iv, ciphertext; `none` on a DEM error -/
  demDec : Bytes → Bytes → Bytes → Option Bytes
  /-- MAC resolved from `mac_spec`: key, message to tag -/
  mac : Bytes → Bytes → Bytes
  /-- output length of the MAC -/
  macLen : Nat

/-- Fixed-width big-endian serialization of a natural number to `width`
bytes (the form in which the agreed X coordinate enters the KDF). -/
def fixedWidthBE (width v : Nat) : Bytes :=
  (List.range width).map (fun i => v / 256 ^ (width - 1 - i) % 256)

/-! ### Parameter records -/

/-- Record `ECIES_System_Params` (ecies.h:119–172): the KA-Params fields that the
claims use (`m_length`, flags) together with the DEM and MAC key lengths; the
accessors `secret_length()`, `dem_keylen()`, `mac_keylen()` are the fields. -/
structure SystemParams where
  secret_length : Nat
  dem_keylen : Nat
  mac_keylen : Nat
  flags : Nat
deriving DecidableEq, Repr

/-- Modelled from the spec: the construction of an `ECIES_System_Params` as
used to build an Encryptor/Decryptor (the constructor body is in the missing
`ecies.cpp`).  Spec §3/§6/§9: `secret_length` must equal
`dem_keylen + mac_keylen`; a mismatch is a configuration-error at
construction. -/
def mkSystemParams (secret_length dem_keylen mac_keylen flags : Nat) :
    Except Err SystemParams :=
  if secret_length = dem_keylen + mac_keylen then
    .ok { secret_length := secret_length, dem_keylen := dem_keylen,
          mac_keylen := mac_keylen, flags := flags }
  else
    .error .configurationError

/-! ### KA-Operation -/

/-- Modelled from the spec: the KDA-mode choice of the `ECIES_KA_Operation`
constructor (ecies.h:187–190; body in the missing `ecies.cpp`).  Spec §4.2:
`"Cofactor"` if `OLD_COFACTOR_MODE || (COFACTOR_MODE && !for_encryption)`,
otherwise the ordinary (`"Raw"`) mode. -/
def kaMode (flags : Nat) (for_encryption : Bool) : String :=
  if old_cofactor_mode flags || (cofactor_mode flags && !for_encryption) then
    "Cofactor"
  else
    "Raw"

/-- Record `ECIES_KA_Operation` (ecies.h:178–203): the private scalar, the KA-Params
fields it uses, and the KDA mode fixed at construction. -/
structure KA_Operation where
  priv : Nat
  flags : Nat
  secret_length : Nat
  mode : String
deriving DecidableEq, Repr

/-- Modelled from the spec: the `ECIES_KA_Operation` constructor
(ecies.h:187–190; body in the missing `ecies.cpp`): store the key and params
and fix the KDA mode from the flags and `for_encryption`. -/
def mkKAOperation (priv flags secret_length : Nat) (for_encryption : Bool) :
    KA_Operation :=
  { priv := priv, flags := flags, secret_length := secret_length,
    mode := kaMode flags for_encryption }

/-- Modelled from the spec: the agreed point of the key agreement underlying
`derive_secret` (spec §4.1, §4.2 step 1, scenario S4 and property 7), in the
cyclic-subgroup model where a point is its index modulo `n`.  ECDHC semantics
(OLD_COFACTOR_MODE, `Z = h·d·Q`) first multiply the peer point by the
cofactor.  The `"Cofactor"` KDA mode is the curve library's cofactor ECDH,
which multiplies the incoming point by the cofactor and corrects the scalar
with `h⁻¹ mod n`, so that on prime-order points — the only points this model
represents — its agreed point coincides with the plain `d·Q`: per S4 the
encrypt-plain/decrypt-COFACTOR round trip succeeds on prime-order
ephemerals, and property 7 excepts exactly those points from cofactor-induced
failure, while the uncorrected ECDHC premultiplication makes the
OLD_COFACTOR-vs-COFACTOR pairing of S4 fail. -/
def agreedPoint (M : Model) (op : KA_Operation) (peer : Nat) : Nat :=
  let q := if old_cofactor_mode op.flags then (M.h * peer) % M.n else peer
  if op.mode = "Cofactor" then
    ((M.hInv * op.priv) % M.n) * ((M.h * q) % M.n) % M.n
  else
    (op.priv * q) % M.n

/-- Modelled from the spec: `ECIES_KA_Operation::derive_secret`
(ecies.h:197–198; body in the missing `ecies.cpp`).  Spec §4.2: `Z` is the X
coordinate of the agreed point serialized fixed-width big-endian to the field
byte length; the KDF input is `eph_pub_bin ‖ Z` iff SINGLE_HASH_MODE and `Z`
otherwise; the result is `KDF(I, secret_length)`; a degenerate (identity)
agreed point is a key-agreement-error. -/
def derive_secret (M : Model) (op : KA_Operation) (eph_pub_bin : Bytes)
    (peer : Nat) : Except Err Bytes :=
  let p := agreedPoint M op peer
  if p = 0 then
    .error .keyAgreementError
  else
    let z := fixedWidthBE M.fieldBytes (M.xCoord p)
    let input := if single_hash_mode op.flags then eph_pub_bin ++ z else z
    .ok (M.kdf input op.secret_length)

/-! ### Encryptor -/

/-- Record `ECIES_Encryptor` state (ecies.h:209–259): the KA-Operation built with
`for_encryption = true`, the system params, the cached encoding of the
ephemeral public key, and the mutable `iv`, `other_point`, `label`. -/
structure Encryptor where
  ka : KA_Operation
  params : SystemParams
  eph_pub_bin : Bytes
  iv : Bytes
  other_point : Option Nat
  label : Bytes
deriving DecidableEq, Repr

/-- Modelled from the spec: the `ECIES_Encryptor` constructor (ecies.h:216–225;
body in the missing `ecies.cpp`): encode the ephemeral public point
(`eph_priv · G`, index `eph_priv % n`) once under the configured compression,
build the KA-Operation with `for_encryption = true`; `other_point` starts
unset, `iv` and `label` empty. -/
def mkEncryptor (M : Model) (P : SystemParams) (eph_priv : Nat) : Encryptor :=
  { ka := mkKAOperation eph_priv P.flags P.secret_length true,
    params := P,
    eph_pub_bin := M.encodePt (eph_priv % M.n),
    iv := [],
    other_point := none,
    label := [] }

/-- Source `ECIES_Encryptor::set_other_key` (ecies.h:228–231, inline in the header):
store the peer public point. -/
def Encryptor.set_other_key (e : Encryptor) (q : Nat) : Encryptor :=
  { e with other_point := some q }

/-- Source `ECIES_Encryptor::set_initialization_vector` (ecies.h:234–237, inline in
the header). -/
def Encryptor.set_initialization_vector (e : Encryptor) (iv : Bytes) : Encryptor :=
  { e with iv := iv }

/-- Source `ECIES_Encryptor::set_label` (ecies.h:240–243, inline in the header):
store the label bytes. -/
def Encryptor.set_label (e : Encryptor) (l : Bytes) : Encryptor :=
  { e with label := l }

/-- Modelled from the spec: `ECIES_Encryptor::enc` (declared ecies.h:246; body
in the missing `ecies.cpp`).  Spec §4.3: require `other_point` set else
missing-peer-key; derive the secret; split it `dem_key ‖ mac_key` at
`dem_keylen`; DEM-encrypt the plaintext to `C`; MAC `C ‖ label` to `T`;
output `eph_pub_bin ‖ C ‖ T`. -/
def enc (M : Model) (e : Encryptor) (msg : Bytes) : Except Err Bytes :=
  match e.other_point with
  | none => .error .missingPeerKey
  | some q =>
    match derive_secret M e.ka e.eph_pub_bin q with
    | .error er => .error er
    | .ok secret =>
      let dem_key := secret.take e.params.dem_keylen
      let mac_key := (secret.drop e.params.dem_keylen).take e.params.mac_keylen
      let c := M.demEnc dem_key e.iv msg
      let t := M.mac mac_key (c ++ e.label)
      .ok (e.eph_pub_bin ++ c ++ t)

/-! ### Decryptor -/

/-- Record `ECIES_Decryptor` state (ecies.h:265–295): the KA-Operation built with
`for_encryption = false`, the system params, `iv` and `label`. -/
structure Decryptor where
  ka : KA_Operation
  params : SystemParams
  iv : Bytes
  label : Bytes
deriving DecidableEq, Repr

/-- Modelled from the spec: the `ECIES_Decryptor` constructor (ecies.h:272–274;
body in the missing `ecies.cpp`): build the KA-Operation over the recipient's
long-term private key with `for_encryption = false`; `iv` and `label` default
to empty. -/
def mkDecryptor (P : SystemParams) (priv : Nat) : Decryptor :=
  { ka := mkKAOperation priv P.flags P.secret_length false,
    params := P,
    iv := [],
    label := [] }

/-- Source `ECIES_Decryptor::set_initialization_vector` (ecies.h:277–280, inline in
the header). -/
def Decryptor.set_initialization_vector (d : Decryptor) (iv : Bytes) : Decryptor :=
  { d with iv := iv }

/-- Source `ECIES_Decryptor::set_label` (ecies.h:283–286, inline in the header). -/
def Decryptor.set_label (d : Decryptor) (l : Bytes) : Decryptor :=
  { d with label := l }

/-- Modelled from the spec: the constant-time tag comparison of spec §4.4
step 7, by value: the valid_mask byte is all-ones (255) when the tags are
equal and all-zeros (0) otherwise. -/
def ctCompare (a b : Bytes) : Nat :=
  if a = b then 255 else 0

/-- Modelled from the spec: steps 7–9 of `do_decrypt` (spec §4.4): recompute
the tag over `C ‖ label`, fold the comparison into `valid_mask`; on a valid
tag DEM-decrypt `C` (a DEM error here is surfaced as dem-error, spec §7); on
an invalid tag return the zeroed plaintext with `valid_mask = 0`, swallowing
any DEM error. -/
def macThenDem (M : Model) (dem_key mac_key iv lbl c t : Bytes) :
    Except Err (Bytes × Nat) :=
  let t2 := M.mac mac_key (c ++ lbl)
  let mask := ctCompare t t2
  if mask = 255 then
    match M.demDec dem_key iv c with
    | some p => .ok (p, 255)
    | none => .error .demError
  else
    .ok (List.replicate ((M.demDec dem_key iv c).getD []).length 0, 0)

/-- Modelled from the spec: `ECIES_Decryptor::do_decrypt` (declared
ecies.h:289; body in the missing `ecies.cpp`).  Spec §4.4: reject inputs
shorter than `ptLen + macLen` as malformed; split the input into the encoded
ephemeral key, the DEM ciphertext and the tag; decode the point (bad-point on
parse failure, and on an identity point under CHECK_MODE); derive the secret;
split it at `dem_keylen`; verify the tag and decrypt via `macThenDem`. -/
def do_decrypt (M : Model) (d : Decryptor) (input : Bytes) :
    Except Err (Bytes × Nat) :=
  if input.length < M.ptLen + M.macLen then
    .error .malformed
  else
    let eph_bin := input.take M.ptLen
    let rest := input.drop M.ptLen
    let c := rest.take (rest.length - M.macLen)
    let t := rest.drop (rest.length - M.macLen)
    match M.decodePt eph_bin with
    | none => .error .badPoint
    | some pt =>
      if check_mode d.ka.flags && decide (pt % M.n = 0) then
        .error .badPoint
      else
        match derive_secret M d.ka eph_bin pt with
        | .error er => .error er
        | .ok secret =>
          macThenDem M (secret.take d.params.dem_keylen)
            ((secret.drop d.params.dem_keylen).take d.params.mac_keylen)
            d.iv d.label c t

/-! ### A concrete instantiation of the external collaborators

A small cyclic group of order 5 with cofactor 2 and simple executable
KDF/DEM/MAC instances satisfying the contracts the spec states for them; used
to evaluate the operations at concrete inputs. -/

/-- A concrete model: subgroup order 5, cofactor 2, one field byte, two-byte
point encoding `[4, x]`, a KDF that expands the input sum, an identity DEM
and a two-byte MAC of key sum and message sum. -/
def toyModel : Model :=
  { n := 5,
    h := 2,
    hInv := 3,
    fieldBytes := 1,
    ptLen := 2,
    xCoord := fun p => p,
    encodePt := fun p => [4, p % 256],
    decodePt := fun b =>
      match b with
      | [4, x] => some x
      | _ => none,
    kdf := fun i l => (List.range l).map (fun j => (i.sum + j) % 256),
    demEnc := fun _ _ m => m,
    demDec := fun _ _ c => some c,
    mac := fun k m => [k.sum % 256, m.sum % 256],
    macLen := 2 }

/-- Variant of `toyModel` with a DEM whose decryption always fails, to exercise the
coalescing of a post-MAC-failure DEM error. -/
def toyModelDemFail : Model :=
  { toyModel with demDec := fun _ _ _ => none }

/-- Concrete well-formed params (secret 3 = 1 + 2) with COFACTOR_MODE set. -/
def toyParamsCof : SystemParams :=
  { secret_length := 3, dem_keylen := 1, mac_keylen := 2, flags := COFACTOR_MODE }

/-- Concrete well-formed params (secret 3 = 1 + 2) with OLD_COFACTOR_MODE set. -/
def toyParamsOld : SystemParams :=
  { secret_length := 3, dem_keylen := 1, mac_keylen := 2, flags := OLD_COFACTOR_MODE }

/-! ## Helper lemmas -/

/-- Masking with a single power of two and comparing to it reads off the
corresponding bit. -/
theorem flagAnd_pow_beq (f k : Nat) : (flagAnd f (2 ^ k) == 2 ^ k) = f.testBit k := by
  have h := Nat.and_two_pow f k
  cases hb : f.testBit k <;> rw [hb] at h <;> simp at h <;> simp [flagAnd, h]
  exact fun hc => absurd hc.symm (Nat.two_pow_pos k).ne'

/-- The toy KDF honours the requested output length. -/
theorem toyModel_kdf_len : ∀ i l, (toyModel.kdf i l).length = l := by
  intro i l
  simp [toyModel]

/-- Lemma `macThenDem` only ever reports the mask 0 or 255. -/
theorem macThenDem_mask (M : Model) (dk mk iv lbl c t P : Bytes) (mask : Nat)
    (h : macThenDem M dk mk iv lbl c t = .ok (P, mask)) : mask = 0 ∨ mask = 255 := by
  simp only [macThenDem] at h
  split at h
  · split at h
    · simp only [Except.ok.injEq, Prod.mk.injEq] at h
      exact Or.inr h.2.symm
    · cases h
  · simp only [Except.ok.injEq, Prod.mk.injEq] at h
    exact Or.inl h.2.symm

/-- When `macThenDem` reports mask 0 the returned plaintext is all zeros. -/
theorem macThenDem_zeroed (M : Model) (dk mk iv lbl c t P : Bytes)
    (h : macThenDem M dk mk iv lbl c t = .ok (P, 0)) : ∀ b ∈ P, b = 0 := by
  simp only [macThenDem] at h
  split at h
  · split at h
    · simp only [Except.ok.injEq, Prod.mk.injEq] at h
      exact absurd h.2 (by decide)
    · cases h
  · simp only [Except.ok.injEq, Prod.mk.injEq] at h
    intro b hb
    rw [← h.1] at hb
    exact List.eq_of_mem_replicate hb

/-- On a tag mismatch, `macThenDem` returns `(zeroed, 0)` even when the DEM
decryption errors: the DEM error is coalesced, not surfaced. -/
theorem macThenDem_coalesce (M : Model) (dk mk iv lbl c t : Bytes)
    (hne : t ≠ M.mac mk (c ++ lbl))
    (hdem : M.demDec dk iv c = none) :
    macThenDem M dk mk iv lbl c t = .ok ([], 0) := by
  simp [macThenDem, ctCompare, hdem, hne]

/-! ## Claims -/

/-- C10: each `ECIES_KA_Params` flag accessor returns true exactly when the
corresponding bit (1, 2, 4, 8) is set in the stored flags value, and a value
combined with `operator|` can carry COFACTOR_MODE and OLD_COFACTOR_MODE
simultaneously, both accessors then returning true: the flags type imposes no
mutual exclusion. -/
theorem flag_accessors_test_bits :
    (∀ f : Nat,
      single_hash_mode f = f.testBit 0 ∧
      cofactor_mode f = f.testBit 1 ∧
      old_cofactor_mode f = f.testBit 2 ∧
      check_mode f = f.testBit 3) ∧
    cofactor_mode (flagOr COFACTOR_MODE OLD_COFACTOR_MODE) = true ∧
    old_cofactor_mode (flagOr COFACTOR_MODE OLD_COFACTOR_MODE) = true := by
  refine ⟨fun f => ⟨?_, ?_, ?_, ?_⟩, by decide, by decide⟩
  · have h := flagAnd_pow_beq f 0
    norm_num at h
    simpa [single_hash_mode, SINGLE_HASH_MODE] using h
  · have h := flagAnd_pow_beq f 1
    norm_num at h
    simpa [cofactor_mode, COFACTOR_MODE] using h
  · have h := flagAnd_pow_beq f 2
    norm_num at h
    simpa [old_cofactor_mode, OLD_COFACTOR_MODE] using h
  · have h := flagAnd_pow_beq f 3
    norm_num at h
    simpa [check_mode, CHECK_MODE] using h

/-- C4: the KA-Operation constructor selects the `"Cofactor"` KDA mode exactly
when OLD_COFACTOR_MODE is set, or COFACTOR_MODE is set and `for_encryption`
is false; in particular COFACTOR_MODE alone is suppressed when constructing
for encryption. -/
theorem ka_operation_mode_selection :
    (∀ (priv len flags : Nat) (fe : Bool),
      ((mkKAOperation priv flags len fe).mode = "Cofactor" ↔
        (old_cofactor_mode flags || (cofactor_mode flags && !fe)) = true)) ∧
    (∀ priv len flags : Nat,
      cofactor_mode flags = true → old_cofactor_mode flags = false →
      (mkKAOperation priv flags len true).mode = "Raw") := by
  constructor
  · intro priv len flags fe
    show kaMode flags fe = "Cofactor" ↔ _
    unfold kaMode
    split
    next h => exact iff_of_true rfl h
    next h => exact iff_of_false (by decide) h
  · intro priv len flags hc ho
    show kaMode flags true = "Raw"
    unfold kaMode
    simp [ho]

/-- C4 witness: with COFACTOR_MODE set (and OLD_COFACTOR_MODE clear),
constructing for encryption yields the ordinary mode. -/
theorem ka_operation_mode_selection_witness :
    (mkKAOperation 1 COFACTOR_MODE 3 true).mode = "Raw" :=
  ka_operation_mode_selection.2 1 3 COFACTOR_MODE (by decide) (by decide)

/-- C5: a System-Params accepted at construction satisfies
`secret_length = dem_keylen + mac_keylen`, and a configuration violating the
equality is rejected as a configuration-error at construction. -/
theorem system_params_secret_length_split :
    (∀ s dk mk fl P, mkSystemParams s dk mk fl = .ok P →
      P.secret_length = P.dem_keylen + P.mac_keylen) ∧
    (∀ s dk mk fl, s ≠ dk + mk →
      mkSystemParams s dk mk fl = .error .configurationError) := by
  constructor
  · intro s dk mk fl P hP
    unfold mkSystemParams at hP
    split at hP
    next h => cases hP; simpa using h
    next h => cases hP
  · intro s dk mk fl h
    unfold mkSystemParams
    rw [if_neg h]

/-- C5 witness: `secret_length 4 ≠ 1 + 2` is a configuration-error, and the
well-formed `3 = 1 + 2` configuration is accepted with the equality holding. -/
theorem system_params_secret_length_split_witness :
    mkSystemParams 4 1 2 0 = .error .configurationError ∧
    toyParamsCof.secret_length = toyParamsCof.dem_keylen + toyParamsCof.mac_keylen :=
  ⟨system_params_secret_length_split.2 4 1 2 0 (by decide),
   system_params_secret_length_split.1 3 1 2 COFACTOR_MODE toyParamsCof rfl⟩

/-- C7: any input strictly shorter than the encoded ephemeral-key length plus
the MAC output length is rejected by `do_decrypt` as malformed, before any
key agreement or decryption. -/
theorem do_decrypt_short_input_malformed (M : Model) (d : Decryptor)
    (input : Bytes) (h : input.length < M.ptLen + M.macLen) :
    do_decrypt M d input = .error .malformed := by
  unfold do_decrypt
  rw [if_pos h]

/-- C7 witness: a 3-byte input against a 2-byte point encoding and 2-byte MAC
is malformed. -/
theorem do_decrypt_short_input_malformed_witness :
    do_decrypt toyModel (mkDecryptor toyParamsCof 1) [4, 1, 7] = .error .malformed :=
  do_decrypt_short_input_malformed toyModel (mkDecryptor toyParamsCof 1) [4, 1, 7]
    (by decide)

/-- C8: an Encryptor on which `set_other_key` was never invoked — fresh from
the constructor, with or without an IV and label set — fails `encrypt` with
missing-peer-key and produces no ciphertext. -/
theorem enc_without_other_key_fails :
    ∀ (M : Model) (P : SystemParams) (d : Nat) (iv lbl msg : Bytes),
      enc M (mkEncryptor M P d) msg = .error .missingPeerKey ∧
      enc M (((mkEncryptor M P d).set_initialization_vector iv).set_label lbl) msg =
        .error .missingPeerKey := by
  intro M P d iv lbl msg
  exact ⟨rfl, rfl⟩

/-- C2: with the peer key set and the secret derived, `enc` outputs exactly
`eph_pub_bin ‖ C ‖ T`, where `dem_key` is the first `dem_keylen` bytes of the
secret, `mac_key` the next `mac_keylen` bytes, `C` the DEM encryption of the
message under `dem_key` and the configured IV, and `T` the MAC under
`mac_key` of `C` followed by the label (label appended, never prepended). -/
theorem enc_output_structure (M : Model) (e : Encryptor) (msg : Bytes)
    (q : Nat) (secret : Bytes)
    (hq : e.other_point = some q)
    (hs : derive_secret M e.ka e.eph_pub_bin q = .ok secret) :
    enc M e msg =
      .ok (e.eph_pub_bin ++
        M.demEnc (secret.take e.params.dem_keylen) e.iv msg ++
        M.mac ((secret.drop e.params.dem_keylen).take e.params.mac_keylen)
          (M.demEnc (secret.take e.params.dem_keylen) e.iv msg ++ e.label)) := by
  simp only [enc, hq, hs]

/-- C2 witness: the concrete ciphertext `[4,1] ‖ [7] ‖ [5,7]` produced at the
toy instantiation. -/
theorem enc_output_structure_witness :
    enc toyModel ((mkEncryptor toyModel toyParamsCof 1).set_other_key 1) [7] =
      .ok [4, 1, 7, 5, 7] :=
  (enc_output_structure toyModel
    ((mkEncryptor toyModel toyParamsCof 1).set_other_key 1) [7] 1 [1, 2, 3]
    rfl rfl).trans rfl

/-- C3: on a non-degenerate agreed point, `derive_secret` returns
`KDF(I, secret_length)` where `I = eph_pub_bin ‖ Z` when SINGLE_HASH_MODE is
set and `I = Z` otherwise, `Z` being the X coordinate of the agreed point
serialized fixed-width big-endian to the field byte length; the returned key
has exactly `secret_length` bytes. -/
theorem derive_secret_kdf_structure (M : Model) (op : KA_Operation)
    (eph : Bytes) (peer : Nat)
    (hkdf : ∀ i l, (M.kdf i l).length = l)
    (hp : agreedPoint M op peer ≠ 0) :
    derive_secret M op eph peer =
      .ok (M.kdf
        (if single_hash_mode op.flags then
          eph ++ fixedWidthBE M.fieldBytes (M.xCoord (agreedPoint M op peer))
        else fixedWidthBE M.fieldBytes (M.xCoord (agreedPoint M op peer)))
        op.secret_length) ∧
    (∀ s, derive_secret M op eph peer = .ok s → s.length = op.secret_length) ∧
    (fixedWidthBE M.fieldBytes (M.xCoord (agreedPoint M op peer))).length =
      M.fieldBytes := by
  refine ⟨?_, ?_, ?_⟩
  · simp only [derive_secret]
    rw [if_neg hp]
  · intro s hs
    simp only [derive_secret] at hs
    rw [if_neg hp] at hs
    cases hs
    exact hkdf _ _
  · simp [fixedWidthBE]

/-- C3 witness: at the toy instantiation, the corrected cofactor-mode secret
for ephemeral encoding `[4,1]` and peer point 1 is `KDF([1], 3) = [1,2,3]`. -/
theorem derive_secret_kdf_structure_witness :
    derive_secret toyModel (mkKAOperation 1 COFACTOR_MODE 3 false) [4, 1] 1 =
      .ok [1, 2, 3] := by
  have h := derive_secret_kdf_structure toyModel
    (mkKAOperation 1 COFACTOR_MODE 3 false) [4, 1] 1 toyModel_kdf_len (by decide)
  rw [h.1]
  rfl

/-- C6: any plaintext-mask pair returned by `do_decrypt` carries a mask that
is all-ones (255) or all-zeros (0); a zero mask comes with a zeroed plaintext
buffer and no exception; and on a tag mismatch the result is the zeroed
plaintext with mask 0 even when the DEM decryption errors — the
post-MAC-failure DEM error is coalesced into the same `valid_mask = 0`
result rather than surfaced as a distinct error. -/
theorem do_decrypt_mask_and_coalescing :
    (∀ (M : Model) (d : Decryptor) (input P : Bytes) (mask : Nat),
      do_decrypt M d input = .ok (P, mask) → mask = 0 ∨ mask = 255) ∧
    (∀ (M : Model) (d : Decryptor) (input P : Bytes),
      do_decrypt M d input = .ok (P, 0) → ∀ b ∈ P, b = 0) ∧
    (∀ (M : Model) (d : Decryptor) (input : Bytes) (pt : Nat) (secret : Bytes),
      M.ptLen + M.macLen ≤ input.length →
      M.decodePt (input.take M.ptLen) = some pt →
      (check_mode d.ka.flags && decide (pt % M.n = 0)) = false →
      derive_secret M d.ka (input.take M.ptLen) pt = .ok secret →
      (input.drop M.ptLen).drop ((input.drop M.ptLen).length - M.macLen) ≠
        M.mac ((secret.drop d.params.dem_keylen).take d.params.mac_keylen)
          ((input.drop M.ptLen).take ((input.drop M.ptLen).length - M.macLen) ++
            d.label) →
      M.demDec (secret.take d.params.dem_keylen) d.iv
        ((input.drop M.ptLen).take ((input.drop M.ptLen).length - M.macLen)) =
        none →
      do_decrypt M d input = .ok ([], 0)) := by
  refine ⟨?_, ?_, ?_⟩
  · intro M d input P mask h
    simp only [do_decrypt] at h
    split at h
    · cases h
    · split at h
      · cases h
      · split at h
        · cases h
        · split at h
          · cases h
          · exact macThenDem_mask _ _ _ _ _ _ _ _ _ h
  · intro M d input P h
    simp only [do_decrypt] at h
    split at h
    · cases h
    · split at h
      · cases h
      · split at h
        · cases h
        · split at h
          · cases h
          · exact macThenDem_zeroed _ _ _ _ _ _ _ _ h
  · intro M d input pt secret hlen hdec hcheck hderive hne hdem
    simp only [do_decrypt]
    rw [if_neg (by omega)]
    simp only [hdec, hcheck, Bool.false_eq_true, if_false, hderive]
    exact macThenDem_coalesce M _ _ _ _ _ _ hne hdem

/-- C6 witness: at the toy instantiation with an always-failing DEM, a
ciphertext with a tampered tag (`[9,7]` instead of `[5,7]`) decrypts to the
zeroed plaintext with mask 0 and no exception. -/
theorem do_decrypt_mask_and_coalescing_witness :
    do_decrypt toyModelDemFail (mkDecryptor toyParamsCof 1) [4, 1, 7, 9, 7] =
      .ok ([], 0) :=
  do_decrypt_mask_and_coalescing.2.2 toyModelDemFail (mkDecryptor toyParamsCof 1)
    [4, 1, 7, 9, 7] 1 [1, 2, 3] (by decide) rfl (by decide) rfl (by decide) rfl

/-- Plain Diffie–Hellman symmetry in the cyclic-subgroup model. -/
theorem mul_mod_swap (a b n : Nat) : (a * (b % n)) % n = (b * (a % n)) % n := by
  rw [Nat.mul_mod_mod, Nat.mul_mod_mod, Nat.mul_comm]

/-- Cofactor Diffie–Hellman symmetry in the cyclic-subgroup model. -/
theorem cof_mul_mod_swap (h a b n : Nat) :
    (h * a * (b % n)) % n = (h * b * (a % n)) % n := by
  rw [Nat.mul_assoc, Nat.mul_assoc, Nat.mul_mod h (a * (b % n)) n,
    Nat.mul_mod h (b * (a % n)) n, mul_mod_swap a b n]

/-- The h-inverse-corrected cofactor agreement of the curve library's
cofactor ECDH coincides with the plain agreement on the prime-order subgroup,
under the library's inverse contract `h · h⁻¹ ≡ 1 (mod n)`. -/
theorem corrected_cofactor_eq_plain (M : Model) (d q : Nat)
    (hcof : M.h * M.hInv % M.n = 1) :
    ((M.hInv * d) % M.n) * ((M.h * q) % M.n) % M.n = (d * q) % M.n := by
  rw [← Nat.mul_mod]
  have h1 : M.hInv * d * (M.h * q) = M.h * M.hInv * (d * q) := by ring
  rw [h1, Nat.mul_mod (M.h * M.hInv) (d * q) M.n, hcof, Nat.one_mul,
    Nat.mod_mod_of_dvd (d * q) dvd_rfl]

/-- On the represented prime-order points, every agreement reduces to
`d · q`, with `q` the peer point premultiplied by the cofactor exactly when
ECDHC (OLD_COFACTOR_MODE) semantics apply. -/
theorem agreedPoint_eq_plain (M : Model) (op : KA_Operation) (peer : Nat)
    (hcof : M.h * M.hInv % M.n = 1) :
    agreedPoint M op peer =
      (op.priv *
        (if old_cofactor_mode op.flags then (M.h * peer) % M.n else peer)) %
        M.n := by
  simp only [agreedPoint]
  split
  · exact corrected_cofactor_eq_plain M op.priv _ hcof
  · rfl

/-- The two sides of the key agreement land on the same point for every flag
configuration shared by both parties, under the cofactor-inverse contract. -/
theorem agreed_symmetric (M : Model) (flags len1 len2 d_e d_r : Nat)
    (hcof : M.h * M.hInv % M.n = 1) :
    agreedPoint M (mkKAOperation d_e flags len1 true) (d_r % M.n) =
      agreedPoint M (mkKAOperation d_r flags len2 false) (d_e % M.n) := by
  rw [agreedPoint_eq_plain M _ _ hcof, agreedPoint_eq_plain M _ _ hcof]
  show (d_e * (if old_cofactor_mode flags then (M.h * (d_r % M.n)) % M.n
      else d_r % M.n)) % M.n =
    (d_r * (if old_cofactor_mode flags then (M.h * (d_e % M.n)) % M.n
      else d_e % M.n)) % M.n
  by_cases ho : old_cofactor_mode flags
  · rw [if_pos ho, if_pos ho, Nat.mul_mod_mod, Nat.mul_mod_mod,
      Nat.mul_left_comm d_e M.h, Nat.mul_left_comm d_r M.h,
      ← Nat.mul_assoc, ← Nat.mul_assoc]
    exact cof_mul_mod_swap M.h d_e d_r M.n
  · rw [if_neg ho, if_neg ho]
    exact mul_mod_swap d_e d_r M.n

/-- A successful secret derivation implies a non-degenerate agreed point. -/
theorem derive_ok_agreed_ne (M : Model) (op : KA_Operation) (eph : Bytes)
    (peer : Nat) (s : Bytes) (h : derive_secret M op eph peer = .ok s) :
    agreedPoint M op peer ≠ 0 := by
  intro h0
  simp only [derive_secret] at h
  rw [if_pos h0] at h
  cases h

/-- A successful derivation is the KDF of the agreed serialized coordinate. -/
theorem derive_ok_eq (M : Model) (op : KA_Operation) (eph : Bytes)
    (peer : Nat) (s : Bytes) (h : derive_secret M op eph peer = .ok s) :
    s = M.kdf
      (if single_hash_mode op.flags then
        eph ++ fixedWidthBE M.fieldBytes (M.xCoord (agreedPoint M op peer))
      else fixedWidthBE M.fieldBytes (M.xCoord (agreedPoint M op peer)))
      op.secret_length := by
  simp only [derive_secret] at h
  rw [if_neg (derive_ok_agreed_ne M op eph peer s (by
    simp only [derive_secret]
    exact h))] at h
  cases h
  rfl

/-- Inversion of a successful encryption: the ciphertext is
`eph_pub_bin ‖ C ‖ T` for the derived secret. -/
theorem enc_ok_inversion (M : Model) (e : Encryptor) (msg ct : Bytes) (q : Nat)
    (hq : e.other_point = some q)
    (henc : enc M e msg = .ok ct) :
    ∃ secret, derive_secret M e.ka e.eph_pub_bin q = .ok secret ∧
      ct = e.eph_pub_bin ++ M.demEnc (secret.take e.params.dem_keylen) e.iv msg ++
        M.mac ((secret.drop e.params.dem_keylen).take e.params.mac_keylen)
          (M.demEnc (secret.take e.params.dem_keylen) e.iv msg ++ e.label) := by
  simp only [enc, hq] at henc
  cases hd : derive_secret M e.ka e.eph_pub_bin q with
  | error er =>
    rw [hd] at henc
    cases henc
  | ok secret =>
    rw [hd] at henc
    simp only [Except.ok.injEq] at henc
    exact ⟨secret, rfl, henc.symm⟩

/-- A multiple of the modulus reduces to zero. -/
theorem mod_eq_zero_of_dvd (a n : Nat) (h : n ∣ a) : a % n = 0 := by
  obtain ⟨k, rfl⟩ := h
  exact Nat.mul_mod_right n k

/-- Lemma `derive_secret` depends on the key pair only through the agreed point;
operations with the same flags and secret length that agree there derive the
same secret from the same encoded ephemeral key. -/
theorem derive_secret_agreed_congr (M : Model) (op1 op2 : KA_Operation)
    (eph : Bytes) (p1 p2 : Nat)
    (hfl : op1.flags = op2.flags) (hlen : op1.secret_length = op2.secret_length)
    (hag : agreedPoint M op1 p1 = agreedPoint M op2 p2) :
    derive_secret M op1 eph p1 = derive_secret M op2 eph p2 := by
  simp only [derive_secret, hag, hfl, hlen]

/-- Core of the round-trip: decrypting `eph_pub_bin ‖ C ‖ T` as produced from
the secret that encryption derived recovers the message with mask 255, for
every shared flag configuration, under the cofactor-inverse contract. -/
theorem round_trip_core (M : Model) (P : SystemParams) (d_r d_e : Nat)
    (iv lbl msg secret : Bytes)
    (hds : derive_secret M (mkKAOperation d_e P.flags P.secret_length true)
      (M.encodePt (d_e % M.n)) (d_r % M.n) = .ok secret)
    (hdem : ∀ k v m, M.demDec k v (M.demEnc k v m) = some m)
    (hmacLen : ∀ k m, (M.mac k m).length = M.macLen)
    (hencLen : (M.encodePt (d_e % M.n)).length = M.ptLen)
    (hdecode : M.decodePt (M.encodePt (d_e % M.n)) = some (d_e % M.n))
    (hcof : M.h * M.hInv % M.n = 1) :
    do_decrypt M (((mkDecryptor P d_r).set_initialization_vector iv).set_label lbl)
      (M.encodePt (d_e % M.n) ++ M.demEnc (secret.take P.dem_keylen) iv msg ++
        M.mac ((secret.drop P.dem_keylen).take P.mac_keylen)
          (M.demEnc (secret.take P.dem_keylen) iv msg ++ lbl)) = .ok (msg, 255) := by
  have hagne : agreedPoint M (mkKAOperation d_e P.flags P.secret_length true)
      (d_r % M.n) ≠ 0 := derive_ok_agreed_ne M _ _ _ _ hds
  have hde0 : d_e % M.n ≠ 0 := by
    intro h0
    apply hagne
    have hd : M.n ∣ d_e := Nat.dvd_of_mod_eq_zero h0
    simp only [agreedPoint]
    split
    · have h1 : (M.hInv * (mkKAOperation d_e P.flags P.secret_length true).priv) %
          M.n = 0 := mod_eq_zero_of_dvd _ _ (hd.mul_left M.hInv)
      rw [h1, Nat.zero_mul, Nat.zero_mod]
    · exact mod_eq_zero_of_dvd _ _ (hd.mul_right _)
  set eph := M.encodePt (d_e % M.n) with heph
  set c := M.demEnc (secret.take P.dem_keylen) iv msg with hcdef
  set t := M.mac ((secret.drop P.dem_keylen).take P.mac_keylen) (c ++ lbl) with htdef
  have hLe : eph.length = M.ptLen := hencLen
  have hLt : t.length = M.macLen := by rw [htdef]; exact hmacLen _ _
  have hP : (((mkDecryptor P d_r).set_initialization_vector iv).set_label
      lbl).params = P := rfl
  have hiv2 : (((mkDecryptor P d_r).set_initialization_vector iv).set_label
      lbl).iv = iv := rfl
  have hlb : (((mkDecryptor P d_r).set_initialization_vector iv).set_label
      lbl).label = lbl := rfl
  have hka : (((mkDecryptor P d_r).set_initialization_vector iv).set_label
      lbl).ka = mkKAOperation d_r P.flags P.secret_length false := rfl
  have hlen : (eph ++ c ++ t).length = M.ptLen + c.length + M.macLen := by
    rw [List.length_append, List.length_append, hLe, hLt]
  have htake : (eph ++ c ++ t).take M.ptLen = eph := by
    rw [List.append_assoc, ← hLe]
    exact List.take_left eph (c ++ t)
  have hdropp : (eph ++ c ++ t).drop M.ptLen = c ++ t := by
    rw [List.append_assoc, ← hLe]
    exact List.drop_left eph (c ++ t)
  have hrest : (c ++ t).length - M.macLen = c.length := by
    rw [List.length_append, hLt]
    omega
  have hctake : (c ++ t).take c.length = c := List.take_left c t
  have hcdrop : (c ++ t).drop c.length = t := List.drop_left c t
  have hagsym := agreed_symmetric M P.flags P.secret_length P.secret_length d_e d_r hcof
  have hdd : derive_secret M (mkKAOperation d_r P.flags P.secret_length false)
      eph (d_e % M.n) = .ok secret :=
    (derive_secret_agreed_congr M (mkKAOperation d_r P.flags P.secret_length false)
      (mkKAOperation d_e P.flags P.secret_length true) eph (d_e % M.n) (d_r % M.n)
      rfl rfl hagsym.symm).trans hds
  simp only [do_decrypt, hP, hiv2, hlb, hka]
  rw [if_neg (by omega)]
  simp only [htake, hdropp, hrest, hctake, hcdrop, hdecode]
  rw [if_neg (by simp [Nat.mod_mod_of_dvd d_e dvd_rfl, hde0])]
  simp only [hdd]
  simp only [macThenDem, ctCompare]
  simp [hcdef, hdem]

/-- C1: for every well-formed System-Params agreed by both parties (any flag
configuration), every recipient key pair `(d_r, Q = d_r·G)`, every plaintext,
IV and label, decrypting with a Decryptor built from `d_r` the ciphertext an
Encryptor with `other_point = Q` produced returns `(msg, valid_mask = 255)`,
under the contracts of the external primitives: DEM round-trip, fixed MAC
and point-encoding lengths, decode inverting encode, and the curve library's
cofactor-inverse contract `h · h⁻¹ ≡ 1 (mod n)` used by its corrected
cofactor ECDH. -/
theorem ecies_round_trip (M : Model) (P : SystemParams) (d_r d_e : Nat)
    (iv lbl msg ct : Bytes)
    (hdem : ∀ k v m, M.demDec k v (M.demEnc k v m) = some m)
    (hmacLen : ∀ k m, (M.mac k m).length = M.macLen)
    (hencLen : (M.encodePt (d_e % M.n)).length = M.ptLen)
    (hdecode : M.decodePt (M.encodePt (d_e % M.n)) = some (d_e % M.n))
    (hcof : M.h * M.hInv % M.n = 1)
    (henc : enc M ((((mkEncryptor M P d_e).set_initialization_vector iv).set_label
        lbl).set_other_key (d_r % M.n)) msg = .ok ct) :
    do_decrypt M (((mkDecryptor P d_r).set_initialization_vector iv).set_label lbl)
      ct = .ok (msg, 255) := by
  obtain ⟨secret, hds, hct⟩ := enc_ok_inversion M _ msg ct (d_r % M.n) rfl henc
  subst hct
  exact round_trip_core M P d_r d_e iv lbl msg secret hds hdem hmacLen hencLen
    hdecode hcof

/-- C1 witness: with COFACTOR_MODE set at the toy instantiation (cofactor 2,
subgroup order 5, inverse 3), encryption suppresses cofactor mode, decryption
uses the corrected cofactor agreement, and decrypting the produced ciphertext
`[4,1,7,5,7]` recovers `([7], 255)`. -/
theorem ecies_round_trip_witness :
    do_decrypt toyModel
      (((mkDecryptor toyParamsCof 1).set_initialization_vector []).set_label [])
      [4, 1, 7, 5, 7] = .ok ([7], 255) :=
  ecies_round_trip toyModel toyParamsCof 1 1 [] [] [7] [4, 1, 7, 5, 7]
    (fun _ _ _ => rfl) (fun _ _ => rfl) rfl rfl rfl rfl

end ECIES
